import Mathlib

/-!
Verification development for the FuzroDo workflow-orchestration server.

The definitions below are shallow embeddings of the TypeScript sources:

* `WorkflowStateManager` — src/src/utils/workflowState.ts (the Resume Token Store).
  The JS `Map<string, PersistedWorkflowState>` is modelled as an association
  list; `Date.now()` becomes an explicit `now : Int` argument threaded through
  every operation; `uuidv4()` is modelled as a fresh natural number drawn from a
  monotone counter, and the token string `` `${workflowId}-${uuidv4()}` `` is
  represented by the pair `(workflowId, uuid)` (injective because uuid v4 values
  are unique and contain no characters of the workflow id's tail).
* `MCPClientManager` — src/src/utils/mcpClient.ts (connection manager, env
  config parsing, requirement validation).  Remote effects (`listTools`) are
  modelled as an explicit oracle returning `Except`, so a thrown rejection is a
  `.error` value; `JSON.parse` of the declared `string[]` payload is an oracle
  `String → Option (List String)`.
* the graph execution engine and the `resume_workflow` handler of
  src/src/index.ts.
-/

/-! ## Association lists (model of the JS `Map`) -/

def lookupEntry {κ ν : Type} [DecidableEq κ] : List (κ × ν) → κ → Option ν
  | [], _ => none
  | e :: es, k => if e.1 = k then some e.2 else lookupEntry es k

def setEntry {κ ν : Type} [DecidableEq κ] : List (κ × ν) → κ → ν → List (κ × ν)
  | [], k, v => [(k, v)]
  | e :: es, k, v => if e.1 = k then (k, v) :: es else e :: setEntry es k v

def eraseEntry {κ ν : Type} [DecidableEq κ] (l : List (κ × ν)) (k : κ) :
    List (κ × ν) :=
  l.filter (fun e => decide (e.1 ≠ k))

/-! ## Resume Token Store — src/src/utils/workflowState.ts -/

/-- A resume token: the TS string `` `${workflowId}-${uuidv4()}` `` modelled as
the pair of the workflow id and the (fresh, unique) uuid. -/
abbrev ResumeToken := String × Nat

/-- `PersistedWorkflowState` of workflowState.ts, polymorphic in the state
payload (`state: any` in TS). -/
structure PersistedWorkflowState (α : Type) where
  workflowId : String
  resumeToken : ResumeToken
  state : α
  timestamp : Int
  expiresAt : Int
  deriving DecidableEq, Repr

/-- The `WorkflowStateManager` class: its private `Map` plus the uuid
counter that models the stream of `uuidv4()` values. -/
structure WorkflowStateManager (α : Type) where
  states : List (ResumeToken × PersistedWorkflowState α)
  nextUuid : Nat
  deriving DecidableEq, Repr

namespace WorkflowStateManager

def empty {α : Type} : WorkflowStateManager α := ⟨[], 0⟩

/-- `DEFAULT_TTL = 30 * 60 * 1000`. -/
def DEFAULT_TTL : Int := 30 * 60 * 1000

/-- `ttl || this.DEFAULT_TTL`: an absent or zero (falsy) ttl falls back to the
default. -/
def effectiveTtl : Option Int → Int
  | none => DEFAULT_TTL
  | some t => if t = 0 then DEFAULT_TTL else t

/-- `cleanupExpired()`: delete every entry with `now > expiresAt`. -/
def cleanupExpired {α : Type} (m : WorkflowStateManager α) (now : Int) :
    WorkflowStateManager α :=
  { m with states := m.states.filter (fun e => decide (now ≤ e.2.expiresAt)) }

/-- `save(workflowId, state, ttl?)`: insert the record under a fresh token,
then sweep expired entries, and return the token. -/
def save {α : Type} (m : WorkflowStateManager α) (workflowId : String) (state : α)
    (ttl : Option Int) (now : Int) : ResumeToken × WorkflowStateManager α :=
  let resumeToken : ResumeToken := (workflowId, m.nextUuid)
  let expiresAt := now + effectiveTtl ttl
  let persistedState : PersistedWorkflowState α :=
    ⟨workflowId, resumeToken, state, now, expiresAt⟩
  let m' : WorkflowStateManager α :=
    { states := setEntry m.states resumeToken persistedState
      nextUuid := m.nextUuid + 1 }
  (resumeToken, cleanupExpired m' now)

/-- `load(resumeToken)`: `null` if absent; if expired, evict and return
`null`; otherwise return the stored state without removing it. -/
def load {α : Type} (m : WorkflowStateManager α) (resumeToken : ResumeToken)
    (now : Int) : Option α × WorkflowStateManager α :=
  match lookupEntry m.states resumeToken with
  | none => (none, m)
  | some persisted =>
    if now > persisted.expiresAt then
      (none, { m with states := eraseEntry m.states resumeToken })
    else
      (some persisted.state, m)

/-- `delete(resumeToken)`: remove the entry, reporting whether it existed. -/
def delete {α : Type} (m : WorkflowStateManager α) (resumeToken : ResumeToken) :
    Bool × WorkflowStateManager α :=
  ((lookupEntry m.states resumeToken).isSome,
    { m with states := eraseEntry m.states resumeToken })

/-- `has(resumeToken)`: false if absent; evict and report false if expired. -/
def has {α : Type} (m : WorkflowStateManager α) (resumeToken : ResumeToken)
    (now : Int) : Bool × WorkflowStateManager α :=
  match lookupEntry m.states resumeToken with
  | none => (false, m)
  | some persisted =>
    if now > persisted.expiresAt then
      (false, { m with states := eraseEntry m.states resumeToken })
    else
      (true, m)

/-- `getWorkflowId(resumeToken)`: `persisted?.workflowId || null` — note the
JS `||` maps an *empty* stored workflowId to `null` as well. -/
def getWorkflowId {α : Type} (m : WorkflowStateManager α)
    (resumeToken : ResumeToken) : Option String :=
  match lookupEntry m.states resumeToken with
  | none => none
  | some persisted =>
    if persisted.workflowId = "" then none else some persisted.workflowId

/-- `getActiveTokens()`: sweep, then list the remaining keys. -/
def getActiveTokens {α : Type} (m : WorkflowStateManager α) (now : Int) :
    List ResumeToken × WorkflowStateManager α :=
  let m' := cleanupExpired m now
  (m'.states.map (·.1), m')

/-- `clear()`. -/
def clear {α : Type} (m : WorkflowStateManager α) : WorkflowStateManager α :=
  { m with states := [] }

/-- `count()`: sweep, then return the map size. -/
def count {α : Type} (m : WorkflowStateManager α) (now : Int) :
    Nat × WorkflowStateManager α :=
  let m' := cleanupExpired m now
  (m'.states.length, m')

/-- One public store operation together with the data it carries, used to
quantify over arbitrary sequences of store calls. -/
inductive StoreOp (α : Type) where
  | saveOp (workflowId : String) (state : α) (ttl : Option Int)
  | loadOp (tok : ResumeToken)
  | deleteOp (tok : ResumeToken)
  | hasOp (tok : ResumeToken)
  | getWorkflowIdOp (tok : ResumeToken)
  | getActiveTokensOp
  | clearOp
  | countOp

/-- Apply one store operation at a given clock value, keeping only the
resulting store. -/
def applyOp {α : Type} (m : WorkflowStateManager α) : StoreOp α → Int →
    WorkflowStateManager α
  | .saveOp wf st ttl, now => (save m wf st ttl now).2
  | .loadOp tok, now => (load m tok now).2
  | .deleteOp tok, _ => (delete m tok).2
  | .hasOp tok, now => (has m tok now).2
  | .getWorkflowIdOp _, _ => m
  | .getActiveTokensOp, now => (getActiveTokens m now).2
  | .clearOp, _ => clear m
  | .countOp, now => (count m now).2

/-- Apply a sequence of store operations, each tagged with the clock value at
which it runs. -/
def applyOps {α : Type} (m : WorkflowStateManager α)
    (ops : List (StoreOp α × Int)) : WorkflowStateManager α :=
  ops.foldl (fun acc op => applyOp acc op.1 op.2) m

/-- A token that is dead at reference clock `t0`: it was issued by an earlier
`save` (its uuid is below the store's counter) and it is either no longer in
the map (deleted/evicted) or its record's ttl elapsed before `t0`. -/
def tokenRetired {α : Type} (t0 : Int) (tok : ResumeToken)
    (m : WorkflowStateManager α) : Prop :=
  tok.2 < m.nextUuid ∧ ∀ p, (tok, p) ∈ m.states → p.expiresAt < t0

end WorkflowStateManager

/-! ## External Tool Registry and Connection Manager — src/src/utils/mcpClient.ts -/

/-- One tool as reported by a remote catalog (`inputSchema` is opaque to the
orchestrator and omitted). -/
structure MCPToolInfo where
  name : String
  description : Option String
  deriving DecidableEq, Repr

/-- `MCPServerConfig` of src/src/types/mcpConnections.ts; `transport` is always
the literal `"stdio"`. -/
structure MCPServerConfig where
  name : String
  transport : String
  command : String
  args : List String
  deriving DecidableEq, Repr

/-- `MCPConnection` (the live client handle itself is opaque and omitted). -/
structure MCPConnection where
  config : MCPServerConfig
  connected : Bool
  tools : Option (List MCPToolInfo)
  deriving DecidableEq, Repr

/-- `{server, tool}` entry of `missingTools`. -/
structure MissingTool where
  server : String
  tool : String
  deriving DecidableEq, Repr

/-- `MCPValidationResult` of src/src/types/mcpConnections.ts. -/
structure MCPValidationResult where
  valid : Bool
  errors : List String
  warnings : List String
  availableServers : List String
  missingServers : List String
  missingTools : List MissingTool
  deriving DecidableEq, Repr

/-- One declared server dependency of a workflow's requirement set
(`optional?: boolean` with `undefined` falsy becomes a plain `Bool`). -/
structure MCPRequirement where
  name : String
  tools : List String
  optional : Bool
  deriving DecidableEq, Repr

/-- `serverName.toLowerCase().replace(/_/g, '-')`, written on the underlying
character list. -/
def normalizeServerName (s : String) : String :=
  ⟨(s.data.map Char.toLower).map (fun c => if c = '_' then '-' else c)⟩

/-- The regex `^(.+)_MCP_TRANSPORT$` applied to one environment key: returns
the captured server name when the key ends with the suffix and has a nonempty
stem (written on the underlying character list). -/
def matchTransportKey (k : String) : Option String :=
  if "_MCP_TRANSPORT".data.length < k.data.length ∧
      k.data.drop (k.data.length - "_MCP_TRANSPORT".data.length) =
        "_MCP_TRANSPORT".data then
    some ⟨k.data.take (k.data.length - "_MCP_TRANSPORT".data.length)⟩
  else none

/-- First-occurrence deduplication, the iteration order of a JS `Set` built by
repeated `add`. -/
def dedupFirst (l : List String) : List String :=
  l.foldl (fun acc n => if n ∈ acc then acc else acc ++ [n]) []

/-- The `Set` of server names found by scanning `process.env` keys. -/
def serverNamesOf (env : List (String × String)) : List String :=
  dedupFirst (env.filterMap (fun e => matchTransportKey e.1))

/-- Parse one server's environment triple: requires
`transport === 'stdio' && command && argsStr` (empty strings are falsy), then
`JSON.parse(argsStr)` via the `parseArgs` oracle; a parse failure yields `none`
(the server is skipped with a logged warning). -/
def tryParseServer (env : List (String × String))
    (parseArgs : String → Option (List String)) (serverName : String) :
    Option MCPServerConfig :=
  match lookupEntry env (serverName ++ "_MCP_TRANSPORT"),
        lookupEntry env (serverName ++ "_MCP_COMMAND"),
        lookupEntry env (serverName ++ "_MCP_ARGS") with
  | some transport, some command, some argsStr =>
    if transport = "stdio" ∧ command ≠ "" ∧ argsStr ≠ "" then
      match parseArgs argsStr with
      | some args =>
        some ⟨normalizeServerName serverName, "stdio", command, args⟩
      | none => none
    else none
  | _, _, _ => none

/-- `loadConfigFromEnv()`: scan the environment for `*_MCP_TRANSPORT` keys and
store each successfully parsed descriptor under its normalized name. -/
def loadConfigFromEnv (env : List (String × String))
    (parseArgs : String → Option (List String)) :
    List (String × MCPServerConfig) :=
  (serverNamesOf env).foldl
    (fun acc n =>
      match tryParseServer env parseArgs n with
      | some cfg => setEntry acc (normalizeServerName n) cfg
      | none => acc)
    []

/-- The `MCPClientManager` class state: the connection map and the config map. -/
structure MCPClientManager where
  connections : List (String × MCPConnection)
  config : List (String × MCPServerConfig)
  deriving DecidableEq, Repr

namespace MCPClientManager

/-- `hasServer(serverName)`. -/
def hasServer (m : MCPClientManager) (serverName : String) : Bool :=
  (lookupEntry m.config serverName).isSome

/-- `getConfiguredServers()`. -/
def getConfiguredServers (m : MCPClientManager) : List String :=
  m.config.map (·.1)

/-- The body of the per-tool check inside `validateRequirements`. -/
def validateToolStep (optional : Bool) (serverName : String)
    (availableToolNames : List String) (acc : MCPValidationResult)
    (tool : String) : MCPValidationResult :=
  if tool ∈ availableToolNames then acc
  else if optional then
    { acc with
      warnings := acc.warnings ++
        ["Optional tool " ++ tool ++ " not found on " ++ serverName] }
  else
    { acc with
      valid := false
      errors := acc.errors ++
        ["Required tool " ++ tool ++ " not found on " ++ serverName]
      missingTools := acc.missingTools ++ [⟨serverName, tool⟩] }

/-- One iteration of the `for (const requirement of requirements)` loop of
`validateRequirements`.  `listToolsO` is the oracle for the awaited
`this.listTools(name)` call; a `.error` value is the thrown rejection that the
surrounding `try`/`catch` captures. -/
def validateStep (cfg : List (String × MCPServerConfig))
    (listToolsO : String → Except Unit (List MCPToolInfo))
    (r : MCPValidationResult) (req : MCPRequirement) : MCPValidationResult :=
  if (lookupEntry cfg req.name).isNone then
    if req.optional then
      { r with
        warnings := r.warnings ++
          ["Optional MCP server not configured: " ++ req.name] }
    else
      { r with
        valid := false
        errors := r.errors ++
          ["Required MCP server not configured: " ++ req.name]
        missingServers := r.missingServers ++ [req.name] }
  else
    match listToolsO req.name with
    | .ok availableTools =>
      let availableToolNames := availableTools.map (·.name)
      let r1 := { r with availableServers := r.availableServers ++ [req.name] }
      req.tools.foldl (validateToolStep req.optional req.name availableToolNames) r1
    | .error _ =>
      if req.optional then
        { r with
          warnings := r.warnings ++
            ["Failed to connect to optional MCP server: " ++ req.name] }
      else
        { r with
          valid := false
          errors := r.errors ++
            ["Failed to connect to required MCP server: " ++ req.name]
          missingServers := r.missingServers ++ [req.name] }

/-- The fresh result record `validateRequirements` starts from. -/
def initialValidationResult : MCPValidationResult :=
  ⟨true, [], [], [], [], []⟩

/-- `r'` extends `r`: every recorded error, warning, missing server and
missing tool of `r` is still recorded in `r'`, and once `valid` has been
cleared it stays cleared.  Each loop iteration of `validateRequirements` only
extends its accumulator in this sense — no finding is ever dropped. -/
def resultExt (r r' : MCPValidationResult) : Prop :=
  (∀ e ∈ r.errors, e ∈ r'.errors) ∧
  (∀ w ∈ r.warnings, w ∈ r'.warnings) ∧
  (∀ x ∈ r.missingServers, x ∈ r'.missingServers) ∧
  (∀ t ∈ r.missingTools, t ∈ r'.missingTools) ∧
  (r.valid = false → r'.valid = false)

/-- `validateRequirements(requirements)` on a manager whose config map is
`m.config`, with the remote `listTools` effect supplied as an oracle. -/
def validateRequirements (m : MCPClientManager)
    (listToolsO : String → Except Unit (List MCPToolInfo))
    (requirements : List MCPRequirement) : MCPValidationResult :=
  requirements.foldl (validateStep m.config listToolsO) initialValidationResult

/-- One entry of the health snapshot: `{name, connected, toolCount | error}`. -/
structure HealthEntry where
  name : String
  connected : Bool
  toolCount : Option Nat
  error : Option String
  deriving DecidableEq, Repr

/-- Modelled from the spec: `getHealthStatus()` is called from the
`hello_world` handler in src/src/index.ts but its implementation is not among
the provided sources.  Per §4.1 of the spec it is "a non-mutating snapshot used
purely for diagnostics; must not throw", returning one
`{name, connected, toolCount | error}` entry per connection: a connected entry
reports its cached tool count, a disconnected one an error string. -/
def getHealthStatus (m : MCPClientManager) :
    List HealthEntry × MCPClientManager :=
  (m.connections.map (fun e =>
      if e.2.connected then
        ⟨e.1, true, some (e.2.tools.getD []).length, none⟩
      else
        ⟨e.1, false, none, some ("Not connected: " ++ e.1)⟩),
    m)

end MCPClientManager

/-! ## Graph Execution Engine

Modelled from the spec (§4.4): the engine itself is the LangGraph library, an
external dependency whose code is not part of this repository; the repository
only builds graphs for it (e.g. `createGraph` in
src/src/workflows/jiraAudioQuote/workflow.ts) and the pausing node
implementations are likewise absent from the provided sources.  The embedding
below follows §4.4: nodes return partial updates merged by per-field
replace-if-defined reducers, routing follows static/conditional edges, and a
recognized pause marker (`status = "awaiting external action"` together with an
action descriptor) stops routing, persists the merged state in the Resume
Token Store and returns a structured pause result. -/

/-- A dynamic state-channel value. -/
inductive ChannelValue where
  | str (s : String)
  | bool (b : Bool)
  | int (n : Int)
  | strList (l : List String)
  deriving DecidableEq, Repr

/-- One `{step, error}` record of the `errors` channel. -/
structure StepError where
  step : String
  error : String
  deriving DecidableEq, Repr

/-- The action descriptor carried by a pause signal:
`{type, description, instructions, requiredOutputNames[], availableToolNames?}`. -/
structure ActionDescriptor where
  type : String
  description : String
  instructions : String
  requiredOutputNames : List String
  availableToolNames : Option (List String)
  deriving DecidableEq, Repr

/-- An `ExecutionState`: the three mandatory channels, the pause channels, the
`resuming` marker and an open bag of further named fields. -/
structure ExecState where
  currentStep : String
  completedSteps : List String
  errors : List StepError
  status : Option String
  action : Option ActionDescriptor
  resuming : Bool
  fields : List (String × ChannelValue)
  deriving DecidableEq, Repr

/-- A node's partial state update: each channel is optionally supplied; the
reducer keeps the previous value for unsupplied channels. -/
structure ExecUpdate where
  currentStep : Option String
  completedSteps : Option (List String)
  errors : Option (List StepError)
  status : Option String
  action : Option ActionDescriptor
  resuming : Option Bool
  fields : List (String × ChannelValue)
  deriving DecidableEq, Repr

/-- The update that supplies nothing. -/
def ExecUpdate.empty : ExecUpdate := ⟨none, none, none, none, none, none, []⟩

/-- Merge the open field bags: incoming entries replace same-named previous
entries. -/
def mergeFields (prev incoming : List (String × ChannelValue)) :
    List (String × ChannelValue) :=
  incoming.foldl (fun acc e => setEntry acc e.1 e.2) prev

/-- Modelled from the spec: the reducer contract of §4.4 — every channel's
reducer is "replace if the incoming partial update defines the field, else
keep the previous value". -/
def mergeState (s : ExecState) (u : ExecUpdate) : ExecState where
  currentStep := u.currentStep.getD s.currentStep
  completedSteps := u.completedSteps.getD s.completedSteps
  errors := u.errors.getD s.errors
  status := u.status.orElse (fun _ => s.status)
  action := u.action.orElse (fun _ => s.action)
  resuming := (u.resuming.getD s.resuming)
  fields := mergeFields s.fields u.fields

/-- Modelled from the spec: the pause marker — a partial update carrying
`status = "awaiting external action"` together with an action descriptor. -/
def pauseSignal (u : ExecUpdate) : Option ActionDescriptor :=
  match u.status, u.action with
  | some st, some act =>
    if st = "awaiting external action" then some act else none
  | _, _ => none

/-- Modelled from the spec: a compiled workflow graph (§4.4) — named nodes,
an entry routing function (the conditional edge out of the start sentinel)
and a routing function giving, for a node and the post-merge state, the next
node or `none` for the terminal sentinel. -/
structure Graph where
  nodes : List (String × (ExecState → ExecUpdate))
  entry : ExecState → String
  route : String → ExecState → Option String

/-- The two ways an invocation is thrown back at the caller rather than
returning a result: routing to an unknown node, and exceeding the recursion
limit. -/
inductive EngineError where
  | unknownNode (n : String)
  | recursionLimit
  deriving DecidableEq, Repr

/-- The outcome of one engine run: a terminal state, or a structured pause
result `{token, completedStepsSoFar, action}` tagged with the node that
paused. -/
inductive EngineResult where
  | completed (s : ExecState)
  | paused (node : String) (token : ResumeToken)
      (completedStepsSoFar : List String) (action : ActionDescriptor)
  | failed (e : EngineError)
  deriving DecidableEq, Repr

/-- An engine run's result, the store it leaves behind, and the list of nodes
it invoked, in order. -/
structure RunOut where
  result : EngineResult
  store : WorkflowStateManager ExecState
  invoked : List String
  deriving DecidableEq, Repr

/-- Modelled from the spec: the engine loop of §4.4 — invoke the current
node, merge its update, pause if the update carries the pause marker
(persisting the full merged state under a fresh token with the default ttl),
otherwise follow the routing function. -/
def runEngine (g : Graph) (workflowId : String)
    (m : WorkflowStateManager ExecState) (now : Int) :
    Nat → String → ExecState → RunOut
  | 0, _, _ => ⟨.failed .recursionLimit, m, []⟩
  | fuel + 1, cur, s =>
    match lookupEntry g.nodes cur with
    | none => ⟨.failed (.unknownNode cur), m, []⟩
    | some nodeFn =>
      match pauseSignal (nodeFn s) with
      | some act =>
        ⟨.paused cur
            (WorkflowStateManager.save m workflowId (mergeState s (nodeFn s)) none now).1
            (mergeState s (nodeFn s)).completedSteps act,
          (WorkflowStateManager.save m workflowId (mergeState s (nodeFn s)) none now).2,
          [cur]⟩
      | none =>
        match g.route cur (mergeState s (nodeFn s)) with
        | none => ⟨.completed (mergeState s (nodeFn s)), m, [cur]⟩
        | some next =>
          ⟨(runEngine g workflowId m now fuel next (mergeState s (nodeFn s))).result,
            (runEngine g workflowId m now fuel next (mergeState s (nodeFn s))).store,
            cur :: (runEngine g workflowId m now fuel next (mergeState s (nodeFn s))).invoked⟩

/-- LangGraph's default recursion limit. -/
def recursionLimit : Nat := 25

/-- `graph.invoke(state)`: run from the entry point; a `failed` outcome is the
thrown exception of the real engine, surfaced as an `Except.error`. -/
def invokeGraph (g : Graph) (workflowId : String)
    (m : WorkflowStateManager ExecState) (now : Int) (s0 : ExecState) :
    Except EngineError (EngineResult × WorkflowStateManager ExecState × List String) :=
  let o := runEngine g workflowId m now recursionLimit (g.entry s0) s0
  match o.result with
  | .failed e => .error e
  | r => .ok (r, o.store, o.invoked)

/-- A walk through the graph's edge relation from one node to another that
never leaves along an outgoing edge of the banned node. -/
inductive AvoidWalk (g : Graph) (banned : String) : String → String → Prop
  | refl (a : String) : AvoidWalk g banned a a
  | step {a b c : String} (hne : a ≠ banned)
      (hedge : ∃ s, g.route a s = some b)
      (rest : AvoidWalk g banned b c) : AvoidWalk g banned a c

/-! ## The `resume_workflow` handler — src/src/index.ts -/

/-- The failures the handler can throw back across the MCP boundary.
`resumeTokenError` is the spec's `ResumeTokenError`
(`McpError(InvalidRequest, "Invalid or expired resume token")` in the source). -/
inductive McpHandlerError where
  | resumeTokenError (tok : ResumeToken)
  | unknownWorkflowForToken
  | workflowNotFound (id : String)
  | internalError (e : EngineError)
  deriving DecidableEq, Repr

/-- The `resume_workflow` branch of the CallTool handler in src/src/index.ts:
load the saved state (throwing `resumeTokenError` when `load` yields null),
look up the workflow id and its definition, build
`{...savedState, ...results, resuming: true}`, invoke the compiled graph on
it, and delete the token once `invoke` has returned. -/
def resumeWorkflowHandler (registry : String → Option Graph)
    (m : WorkflowStateManager ExecState) (tok : ResumeToken)
    (results : ExecUpdate) (now : Int) :
    Except McpHandlerError EngineResult × WorkflowStateManager ExecState :=
  match WorkflowStateManager.load m tok now with
  | (none, m1) => (.error (.resumeTokenError tok), m1)
  | (some savedState, m1) =>
    match WorkflowStateManager.getWorkflowId m1 tok with
    | none => (.error .unknownWorkflowForToken, m1)
    | some workflowId =>
      match registry workflowId with
      | none => (.error (.workflowNotFound workflowId), m1)
      | some graph =>
        let resumedState := { mergeState savedState results with resuming := true }
        match invokeGraph graph workflowId m1 now resumedState with
        | .error e => (.error (.internalError e), m1)
        | .ok (r, m2, _) => (.ok r, (WorkflowStateManager.delete m2 tok).2)

/-! ## Concrete instances used by witnesses and counterexamples -/

/-- A store record whose ttl has already elapsed at clock value 200. -/
def exRecord : PersistedWorkflowState Nat := ⟨"wf", ("wf", 0), 7, 0, 100⟩

/-- A store holding only `exRecord`. -/
def exMgr : WorkflowStateManager Nat := ⟨[(("wf", 0), exRecord)], 1⟩

/-- A record saved under an empty workflow id. -/
def c9record : PersistedWorkflowState Nat := ⟨"", ("", 0), 7, 0, 100⟩

/-- A store holding only `c9record`, whose ttl has elapsed at clock 200. -/
def c9mgr : WorkflowStateManager Nat := ⟨[(("", 0), c9record)], 1⟩

/-- A concrete action descriptor. -/
def c1action : ActionDescriptor :=
  ⟨"custom", "extract the quote", "open the ticket and copy the quote",
    ["quote"], none⟩

/-- The initial execution state of a fresh invocation. -/
def c1initState : ExecState := ⟨"start", [], [], none, none, false, []⟩

/-- The pausing node's partial update: the recognized marker plus the action
descriptor. -/
def c1pauseUpdate : ExecUpdate :=
  ⟨some "generatePrompt", some ["generatePrompt"], none,
    some "awaiting external action", some c1action, none, []⟩

/-- A two-node graph whose entry node pauses; `processQuote` is reachable only
through the edge out of `generatePrompt`. -/
def c1graph : Graph :=
  ⟨[("generatePrompt", fun _ => c1pauseUpdate),
    ("processQuote", fun _ => ExecUpdate.empty)],
    fun _ => "generatePrompt",
    fun n _ => if n = "generatePrompt" then some "processQuote" else none⟩

/-- The merged state at the pausing node. -/
def c1merged : ExecState := mergeState c1initState c1pauseUpdate

/-- Run the pausing graph from its entry on an empty store. -/
def c1run : RunOut :=
  runEngine c1graph "wf" WorkflowStateManager.empty 0 recursionLimit
    "generatePrompt" c1initState

/-- A paused execution snapshot as it would be persisted. -/
def c4savedState : ExecState :=
  ⟨"paused", ["generatePrompt"], [], none, none, false,
    [("quote", .str "a quote")]⟩

/-- A valid (unexpired at clock 50) resume record for `c4savedState`. -/
def c4record : PersistedWorkflowState ExecState :=
  ⟨"wf", ("wf", 0), c4savedState, 0, 100⟩

/-- A store holding only `c4record`. -/
def c4mgr : WorkflowStateManager ExecState := ⟨[(("wf", 0), c4record)], 1⟩

/-- A one-node graph that terminates immediately. -/
def c4doneGraph : Graph :=
  ⟨[("a", fun _ => ExecUpdate.empty)], fun _ => "a", fun _ _ => none⟩

/-- A one-node graph that loops forever, so that `invoke` throws once the
recursion limit is exceeded. -/
def c4loopGraph : Graph :=
  ⟨[("a", fun _ => ExecUpdate.empty)], fun _ => "a", fun _ _ => some "a"⟩

/-- A registry resolving workflow id `wf` to the terminating graph. -/
def c4registryDone : String → Option Graph :=
  fun id => if id = "wf" then some c4doneGraph else none

/-- A registry resolving workflow id `wf` to the looping graph. -/
def c4registryLoop : String → Option Graph :=
  fun id => if id = "wf" then some c4loopGraph else none

/-- The state the handler passes to `invoke` when resuming `c4record` with an
empty results object. -/
def c4resumed : ExecState :=
  { mergeState c4savedState ExecUpdate.empty with resuming := true }

/-- An environment using the key format the spec describes (no `_MCP` infix). -/
def c8envBad : List (String × String) :=
  [("A_TRANSPORT", "stdio"), ("A_COMMAND", "node"), ("A_ARGS", "[\"a\"]")]

/-- A `JSON.parse` oracle accepting exactly the payload `["a"]`. -/
def c8parse : String → Option (List String) :=
  fun s => if s = "[\"a\"]" then some ["a"] else none

/-- An environment using the key format the source actually matches. -/
def c8envGood : List (String × String) :=
  [("MY_SERVER_MCP_TRANSPORT", "stdio"), ("MY_SERVER_MCP_COMMAND", "node"),
    ("MY_SERVER_MCP_ARGS", "[\"a\"]")]

/-- A configured external server descriptor. -/
def exServerConfig : MCPServerConfig :=
  ⟨"elevenlabs", "stdio", "node", ["dist/index.js"]⟩

/-- A manager with `elevenlabs` configured and nothing connected. -/
def c10mgr : MCPClientManager := ⟨[], [("elevenlabs", exServerConfig)]⟩

/-- A manager with an empty registry. -/
def c7mgr : MCPClientManager := ⟨[], []⟩

/-- A non-optional requirement on the `elevenlabs` server. -/
def c7req : MCPRequirement := ⟨"elevenlabs", ["create_wise_quote_audio"], false⟩

/-- A `listTools` oracle whose every call rejects. -/
def c10oracle : String → Except Unit (List MCPToolInfo) := fun _ => .error ()

/-- A live connection with a cached catalog. -/
def c2conn : MCPConnection :=
  ⟨exServerConfig, true, some [⟨"create_wise_quote_audio", none⟩]⟩

/-- A manager with one connected and one disconnected entry. -/
def c2mgr : MCPClientManager :=
  ⟨[("elevenlabs", c2conn), ("atlassian-prompts", ⟨exServerConfig, false, none⟩)], []⟩

/-! ## Association list lemmas -/

theorem lookupEntry_mem {κ ν : Type} [DecidableEq κ] {l : List (κ × ν)} {k : κ}
    {v : ν} (h : lookupEntry l k = some v) : (k, v) ∈ l := by
  induction l with
  | nil => simp [lookupEntry] at h
  | cons e es ih =>
    rw [lookupEntry] at h
    split at h
    · next heq =>
      injection h with h2
      cases e
      simp_all
    · next hne => exact List.mem_cons_of_mem _ (ih h)

theorem lookupEntry_setEntry_self {κ ν : Type} [DecidableEq κ]
    (l : List (κ × ν)) (k : κ) (v : ν) :
    lookupEntry (setEntry l k v) k = some v := by
  induction l with
  | nil => simp [setEntry, lookupEntry]
  | cons e es ih =>
    rw [setEntry]
    split
    · next heq => rw [lookupEntry]; simp
    · next hne => rw [lookupEntry, if_neg hne]; exact ih

theorem mem_setEntry {κ ν : Type} [DecidableEq κ] {l : List (κ × ν)} {k : κ}
    {v : ν} {e : κ × ν} (h : e ∈ setEntry l k v) : e ∈ l ∨ e = (k, v) := by
  induction l with
  | nil =>
    simp [setEntry] at h
    right; exact h
  | cons e0 es ih =>
    rw [setEntry] at h
    split at h
    · next heq =>
      rcases List.mem_cons.mp h with h1 | h1
      · right; exact h1
      · left; exact List.mem_cons_of_mem _ h1
    · next hne =>
      rcases List.mem_cons.mp h with h1 | h1
      · left; exact h1 ▸ List.mem_cons_self _ _
      · rcases ih h1 with h2 | h2
        · left; exact List.mem_cons_of_mem _ h2
        · right; exact h2

theorem lookupEntry_filter_none {κ ν : Type} [DecidableEq κ]
    {p : κ × ν → Bool} {k : κ} (hp : ∀ v, p (k, v) = false) :
    ∀ l : List (κ × ν), lookupEntry (l.filter p) k = none := by
  intro l
  induction l with
  | nil => rfl
  | cons e es ih =>
    obtain ⟨k1, v1⟩ := e
    rw [List.filter_cons]
    by_cases hpe : p (k1, v1) = true
    · rw [if_pos hpe, lookupEntry]
      split
      · next heq =>
        exfalso
        have hf := hp v1
        rw [show k = k1 from heq.symm] at hf
        rw [hf] at hpe
        exact Bool.false_ne_true hpe
      · next => exact ih
    · rw [if_neg hpe]
      exact ih

theorem lookupEntry_eraseEntry_self {κ ν : Type} [DecidableEq κ]
    (l : List (κ × ν)) (k : κ) :
    lookupEntry (eraseEntry l k) k = none :=
  lookupEntry_filter_none (fun v => by simp) l

theorem lookupEntry_filter {κ ν : Type} [DecidableEq κ] {l : List (κ × ν)}
    {p : κ × ν → Bool} {k : κ} {v : ν} (h : lookupEntry l k = some v)
    (hp : p (k, v) = true) : lookupEntry (l.filter p) k = some v := by
  induction l with
  | nil => simp [lookupEntry] at h
  | cons e es ih =>
    rw [lookupEntry] at h
    split at h
    · next heq =>
      injection h with h2
      have he : e = (k, v) := by cases e; simp_all
      rw [List.filter_cons, he, if_pos hp, lookupEntry]
      simp
    · next hne =>
      rw [List.filter_cons]
      by_cases hpe : p e = true
      · rw [if_pos hpe, lookupEntry, if_neg hne]
        exact ih h
      · rw [if_neg hpe]
        exact ih h

/-! ## Resume Token Store lemmas and claims C6, C5, C9 -/

namespace WorkflowStateManager

theorem save_load_immediate {α : Type} (m : WorkflowStateManager α)
    (wf : String) (st : α) (ttl : Option Int) (now now' : Int)
    (h0 : 0 ≤ effectiveTtl ttl) (h1 : now' ≤ now + effectiveTtl ttl) :
    (load (save m wf st ttl now).2 (save m wf st ttl now).1 now').1 = some st := by
  have htok : (save m wf st ttl now).1 = (wf, m.nextUuid) := rfl
  have hlk : lookupEntry ((save m wf st ttl now).2).states (wf, m.nextUuid) =
      some ⟨wf, (wf, m.nextUuid), st, now, now + effectiveTtl ttl⟩ := by
    simp only [save, cleanupExpired]
    exact lookupEntry_filter (lookupEntry_setEntry_self _ _ _)
      (by simp only [decide_eq_true_eq]; omega)
  rw [htok]
  simp only [load, hlk]
  rw [if_neg (not_lt.mpr h1)]

theorem tokenRetired_mono {α : Type} {t0 : Int} {tok : ResumeToken}
    {m m' : WorkflowStateManager α} (h : tokenRetired t0 tok m)
    (hsub : ∀ p, (tok, p) ∈ m'.states → (tok, p) ∈ m.states)
    (hn : m.nextUuid ≤ m'.nextUuid) : tokenRetired t0 tok m' :=
  ⟨lt_of_lt_of_le h.1 hn, fun p hp => h.2 p (hsub p hp)⟩

theorem tokenRetired_applyOp {α : Type} {t0 : Int} {tok : ResumeToken}
    {m : WorkflowStateManager α} (h : tokenRetired t0 tok m) (op : StoreOp α)
    (now : Int) : tokenRetired t0 tok (applyOp m op now) := by
  cases op with
  | saveOp wf st ttl =>
    refine ⟨?_, ?_⟩
    · have := h.1
      simp only [applyOp, save, cleanupExpired]
      omega
    · intro p hp
      simp only [applyOp, save, cleanupExpired] at hp
      have hp' := List.mem_of_mem_filter hp
      rcases mem_setEntry hp' with h1 | h1
      · exact h.2 p h1
      · exfalso
        have htok : tok = (wf, m.nextUuid) := congrArg Prod.fst h1
        have := h.1
        rw [htok] at this
        simp at this
  | loadOp tok' =>
    refine tokenRetired_mono h ?_ ?_ <;> simp only [applyOp, load]
    · intro p hp
      split at hp
      · exact hp
      · split at hp
        · exact List.mem_of_mem_filter hp
        · exact hp
    · split
      · exact le_refl _
      · split <;> exact le_refl _
  | deleteOp tok' =>
    refine tokenRetired_mono h (fun p hp => ?_) (le_refl _)
    exact List.mem_of_mem_filter hp
  | hasOp tok' =>
    refine tokenRetired_mono h ?_ ?_ <;> simp only [applyOp, has]
    · intro p hp
      split at hp
      · exact hp
      · split at hp
        · exact List.mem_of_mem_filter hp
        · exact hp
    · split
      · exact le_refl _
      · split <;> exact le_refl _
  | getWorkflowIdOp tok' => exact h
  | getActiveTokensOp =>
    exact tokenRetired_mono h (fun p hp => List.mem_of_mem_filter hp) (le_refl _)
  | clearOp =>
    refine tokenRetired_mono h (fun p hp => ?_) (le_refl _)
    simp [applyOp, clear] at hp
  | countOp =>
    exact tokenRetired_mono h (fun p hp => List.mem_of_mem_filter hp) (le_refl _)

theorem tokenRetired_applyOps {α : Type} {t0 : Int} {tok : ResumeToken}
    (ops : List (StoreOp α × Int)) (m : WorkflowStateManager α)
    (h : tokenRetired t0 tok m) : tokenRetired t0 tok (applyOps m ops) := by
  induction ops generalizing m with
  | nil => exact h
  | cons op rest ih => exact ih _ (tokenRetired_applyOp h op.1 op.2)

theorem load_none_of_tokenRetired {α : Type} {t0 : Int} {tok : ResumeToken}
    {m : WorkflowStateManager α} (h : tokenRetired t0 tok m) {t' : Int}
    (ht : t0 ≤ t') : (load m tok t').1 = none := by
  cases hlk : lookupEntry m.states tok with
  | none => simp [load, hlk]
  | some p =>
    have hexp := h.2 p (lookupEntry_mem hlk)
    simp only [load, hlk]
    rw [if_pos (by omega)]

end WorkflowStateManager

/-- C6: for every workflowId, state and ttl, a `save` followed immediately
(before the ttl elapses) by a `load` of the returned token yields exactly the
state that was saved. -/
theorem save_then_load_roundtrip {α : Type} (m : WorkflowStateManager α)
    (workflowId : String) (state : α) (ttl : Option Int) (now now' : Int)
    (h0 : 0 ≤ WorkflowStateManager.effectiveTtl ttl)
    (h1 : now' ≤ now + WorkflowStateManager.effectiveTtl ttl) :
    (WorkflowStateManager.load (m.save workflowId state ttl now).2
        (m.save workflowId state ttl now).1 now').1 = some state :=
  WorkflowStateManager.save_load_immediate m workflowId state ttl now now' h0 h1

/-- Witness for C6 at a concrete store, state and ttl. -/
theorem save_then_load_roundtrip_witness :
    (0 : Int) ≤ WorkflowStateManager.effectiveTtl (some 1000) ∧
    (WorkflowStateManager.load
        ((WorkflowStateManager.empty : WorkflowStateManager Nat).save "wf" 7 (some 1000) 0).2
        ((WorkflowStateManager.empty : WorkflowStateManager Nat).save "wf" 7 (some 1000) 0).1
        0).1 = some 7 :=
  ⟨by decide,
    save_then_load_roundtrip WorkflowStateManager.empty "wf" 7 (some 1000) 0 0
      (by decide) (by decide)⟩

/-- C5: a token issued by the store that has been deleted, or whose ttl
elapsed before clock `t0`, is never again resolved by `load`, no matter which
further store operations run: eviction and deletion are permanent and tokens
are never reused (the uuid counter only grows). -/
theorem token_eviction_permanent {α : Type} (m : WorkflowStateManager α)
    (tok : ResumeToken) (t0 : Int) (ops : List (WorkflowStateManager.StoreOp α × Int))
    (t' : Int) (hIssued : tok.2 < m.nextUuid)
    (hDead : ∀ p, (tok, p) ∈ m.states → p.expiresAt < t0) (ht : t0 ≤ t') :
    (WorkflowStateManager.load (WorkflowStateManager.applyOps m ops) tok t').1 = none :=
  WorkflowStateManager.load_none_of_tokenRetired
    (WorkflowStateManager.tokenRetired_applyOps ops m ⟨hIssued, hDead⟩) ht

/-- Witness for C5: an expired token stays dead across a save, a load, a
delete and a sweep. -/
theorem token_eviction_permanent_witness :
    ("wf", 0).2 < exMgr.nextUuid ∧
    (WorkflowStateManager.load
        (WorkflowStateManager.applyOps exMgr
          [(.saveOp "wf2" 8 none, 250), (.loadOp ("wf", 0), 260),
            (.deleteOp ("wf", 0), 270), (.getActiveTokensOp, 280)])
        ("wf", 0) 300).1 = none :=
  ⟨by decide,
    token_eviction_permanent exMgr ("wf", 0) 200
      [(.saveOp "wf2" 8 none, 250), (.loadOp ("wf", 0), 260),
        (.deleteOp ("wf", 0), 270), (.getActiveTokensOp, 280)] 300
      (by decide)
      (by
        intro p hp
        simp only [exMgr, List.mem_singleton, Prod.mk.injEq] at hp
        rw [hp.2]
        decide)
      (by decide)⟩

/-- C9 (amended): a record still present in the map but past its `expiresAt`
is still reported by `getWorkflowId` — it performs no expiration check —
provided the stored workflowId is non-empty (the JS `|| null` coerces an empty
id to null); a `load` of the same token at the same clock returns none and
evicts the record. -/
theorem getWorkflowId_ignores_expiry {α : Type} (m : WorkflowStateManager α)
    (tok : ResumeToken) (p : PersistedWorkflowState α) (now : Int)
    (hlk : lookupEntry m.states tok = some p) (hexp : now > p.expiresAt)
    (hwf : p.workflowId ≠ "") :
    WorkflowStateManager.getWorkflowId m tok = some p.workflowId ∧
    (WorkflowStateManager.load m tok now).1 = none ∧
    lookupEntry (WorkflowStateManager.load m tok now).2.states tok = none := by
  refine ⟨?_, ?_, ?_⟩
  · simp [WorkflowStateManager.getWorkflowId, hlk, hwf]
  · simp only [WorkflowStateManager.load, hlk]
    rw [if_pos hexp]
  · simp only [WorkflowStateManager.load, hlk]
    rw [if_pos hexp]
    exact lookupEntry_eraseEntry_self _ _

/-- Witness for C9's amended statement at a concrete expired record. -/
theorem getWorkflowId_ignores_expiry_witness :
    WorkflowStateManager.getWorkflowId exMgr ("wf", 0) = some "wf" ∧
    (WorkflowStateManager.load exMgr ("wf", 0) 200).1 = none ∧
    lookupEntry (WorkflowStateManager.load exMgr ("wf", 0) 200).2.states ("wf", 0) = none :=
  getWorkflowId_ignores_expiry exMgr ("wf", 0) exRecord 200 (by decide) (by decide)
    (by decide)

/-- C9 counterexample: with an empty stored workflowId the record is present
and expired, yet `getWorkflowId` does *not* return the stored workflowId —
the `||` coercion yields null. -/
theorem getWorkflowId_empty_id_counterexample :
    lookupEntry c9mgr.states ("", 0) = some c9record ∧
    ((200 : Int) > c9record.expiresAt) ∧
    c9record.workflowId = "" ∧
    WorkflowStateManager.getWorkflowId c9mgr ("", 0) ≠ some c9record.workflowId := by
  refine ⟨by decide, by decide, by decide, by decide⟩

/-! ## Resume boundary claims C3 and C4 -/

/-- C3: a resume call whose token is not present in the store is rejected with
the resume-token error at the invocation boundary, and the store (and the
handler's whole state) is returned unchanged — no mutation occurs. -/
theorem resume_unknown_token_rejected (registry : String → Option Graph)
    (m : WorkflowStateManager ExecState) (tok : ResumeToken)
    (results : ExecUpdate) (now : Int)
    (h : lookupEntry m.states tok = none) :
    resumeWorkflowHandler registry m tok results now =
      (.error (.resumeTokenError tok), m) := by
  have hload : WorkflowStateManager.load m tok now = (none, m) := by
    simp [WorkflowStateManager.load, h]
  simp [resumeWorkflowHandler, hload]

/-- Witness for C3 on the empty store. -/
theorem resume_unknown_token_rejected_witness :
    resumeWorkflowHandler (fun _ => none) WorkflowStateManager.empty ("x", 0)
        ExecUpdate.empty 0 =
      (.error (.resumeTokenError ("x", 0)), WorkflowStateManager.empty) :=
  resume_unknown_token_rejected (fun _ => none) WorkflowStateManager.empty
    ("x", 0) ExecUpdate.empty 0 rfl

/-- C4 (amended): on a valid token the handler loads the snapshot, merges the
supplied results with the `resuming` marker set true, re-invokes the compiled
graph from its entry point on that merged state, and deletes the token only
after the invocation has returned; if the invocation itself throws, the token
is not deleted — it is still loadable, hence replayable, until it expires. -/
theorem resume_valid_token_deletes_after_invoke
    (registry : String → Option Graph) (m : WorkflowStateManager ExecState)
    (tok : ResumeToken) (results : ExecUpdate) (now : Int)
    (p : PersistedWorkflowState ExecState) (g : Graph)
    (hlk : lookupEntry m.states tok = some p)
    (hexp : ¬ now > p.expiresAt)
    (hwf : p.workflowId ≠ "")
    (hreg : registry p.workflowId = some g) :
    (WorkflowStateManager.load m tok now).1 = some p.state ∧
    (∀ e, invokeGraph g p.workflowId m now
          { mergeState p.state results with resuming := true } = .error e →
        resumeWorkflowHandler registry m tok results now =
          (.error (.internalError e), m)) ∧
    (∀ r m2 inv, invokeGraph g p.workflowId m now
          { mergeState p.state results with resuming := true } = .ok (r, m2, inv) →
        resumeWorkflowHandler registry m tok results now =
          (.ok r, (WorkflowStateManager.delete m2 tok).2) ∧
        lookupEntry ((WorkflowStateManager.delete m2 tok).2).states tok = none) := by
  have hload : WorkflowStateManager.load m tok now = (some p.state, m) := by
    simp only [WorkflowStateManager.load, hlk]
    rw [if_neg hexp]
  have hget : WorkflowStateManager.getWorkflowId m tok = some p.workflowId := by
    simp [WorkflowStateManager.getWorkflowId, hlk, hwf]
  refine ⟨by rw [hload], ?_, ?_⟩
  · intro e he
    simp [resumeWorkflowHandler, hload, hget, hreg, he]
  · intro r m2 inv hok
    refine ⟨?_, ?_⟩
    · simp [resumeWorkflowHandler, hload, hget, hreg, hok]
    · exact lookupEntry_eraseEntry_self _ _

/-- Witness for C4's amended statement: a resume that completes, after which
the token is gone. -/
theorem resume_valid_token_deletes_after_invoke_witness :
    (WorkflowStateManager.load c4mgr ("wf", 0) 50).1 = some c4savedState ∧
    (resumeWorkflowHandler c4registryDone c4mgr ("wf", 0) ExecUpdate.empty 50 =
        (.ok (.completed c4resumed), (WorkflowStateManager.delete c4mgr ("wf", 0)).2) ∧
      lookupEntry ((WorkflowStateManager.delete c4mgr ("wf", 0)).2).states ("wf", 0) = none) :=
  ⟨(resume_valid_token_deletes_after_invoke c4registryDone c4mgr ("wf", 0)
      ExecUpdate.empty 50 c4record c4doneGraph rfl (by decide) (by decide) rfl).1,
    (resume_valid_token_deletes_after_invoke c4registryDone c4mgr ("wf", 0)
      ExecUpdate.empty 50 c4record c4doneGraph rfl (by decide) (by decide) rfl).2.2
      (.completed c4resumed) c4mgr ["a"] rfl⟩

/-- C4 counterexample: the claim's ordering (delete the token, only then
re-invoke, so a failed re-invocation can never replay the token) is false in
the source — the delete happens after `invoke`, so when the looping graph
throws at the recursion limit the token is still present and loadable. -/
theorem resume_delete_before_invoke_counterexample :
    resumeWorkflowHandler c4registryLoop c4mgr ("wf", 0) ExecUpdate.empty 50 =
      (.error (.internalError .recursionLimit), c4mgr) ∧
    (WorkflowStateManager.load c4mgr ("wf", 0) 50).1 = some c4savedState ∧
    lookupEntry c4mgr.states ("wf", 0) ≠ none := by
  refine ⟨rfl, by decide, by decide⟩

/-! ## Graph engine pause claim C1 -/

/-- C1: whenever a run of the engine returns a pause result, the pausing
node's merged return value carried the recognized marker and the action, the
full merged state was persisted in the Resume Token Store (a load of the
issued token returns exactly it), the returned pause result carries the token,
the merged state's completed steps and the action, the pausing node is the
last node invoked (routing stopped there), and — when the pausing node was not
also visited earlier in the same call — every invoked node is reachable from
the start without traversing any outgoing edge of the pausing node, so no node
reachable only via those edges was invoked. -/
theorem engine_pause_halts (g : Graph) (workflowId : String)
    (m : WorkflowStateManager ExecState) (now : Int) (fuel : Nat) (cur : String)
    (s : ExecState) (n : String) (tok : ResumeToken) (steps : List String)
    (act : ActionDescriptor) (m' : WorkflowStateManager ExecState)
    (inv : List String)
    (hrun : runEngine g workflowId m now fuel cur s =
      ⟨.paused n tok steps act, m', inv⟩) :
    (∃ σpre nodeFn, lookupEntry g.nodes n = some nodeFn ∧
        pauseSignal (nodeFn σpre) = some act ∧
        (WorkflowStateManager.load m' tok now).1 =
          some (mergeState σpre (nodeFn σpre)) ∧
        steps = (mergeState σpre (nodeFn σpre)).completedSteps) ∧
    inv.getLast? = some n ∧
    (n ∉ inv.dropLast → ∀ nd ∈ inv, nd = n ∨ AvoidWalk g n cur nd) := by
  induction fuel generalizing cur s inv with
  | zero =>
    rw [runEngine] at hrun
    simp [RunOut.mk.injEq] at hrun
  | succ fuel ih =>
    rw [runEngine] at hrun
    split at hrun
    · simp [RunOut.mk.injEq] at hrun
    · next nodeFn hnode =>
      split at hrun
      · next act0 hps =>
        rw [RunOut.mk.injEq] at hrun
        obtain ⟨hres, hstore, hinv⟩ := hrun
        rw [EngineResult.paused.injEq] at hres
        obtain ⟨hcur, htok, hsteps, hact⟩ := hres
        subst hcur
        subst htok
        subst hsteps
        subst hact
        subst hstore
        subst hinv
        refine ⟨⟨s, nodeFn, hnode, hps, ?_, rfl⟩, rfl, ?_⟩
        · exact WorkflowStateManager.save_load_immediate m workflowId _ none now now
            (by norm_num [WorkflowStateManager.effectiveTtl,
              WorkflowStateManager.DEFAULT_TTL])
            (by
              have : (0 : Int) ≤ WorkflowStateManager.effectiveTtl none := by
                norm_num [WorkflowStateManager.effectiveTtl,
                  WorkflowStateManager.DEFAULT_TTL]
              omega)
        · intro _ nd hnd
          rw [List.mem_singleton] at hnd
          exact Or.inl hnd
      · next hps =>
        split at hrun
        · simp [RunOut.mk.injEq] at hrun
        · next next hroute =>
          rw [RunOut.mk.injEq] at hrun
          obtain ⟨hres, hstore, hinv⟩ := hrun
          have heq : runEngine g workflowId m now fuel next (mergeState s (nodeFn s)) =
              ⟨.paused n tok steps act, m',
                (runEngine g workflowId m now fuel next (mergeState s (nodeFn s))).invoked⟩ := by
            have heta : runEngine g workflowId m now fuel next (mergeState s (nodeFn s)) =
                ⟨(runEngine g workflowId m now fuel next (mergeState s (nodeFn s))).result,
                  (runEngine g workflowId m now fuel next (mergeState s (nodeFn s))).store,
                  (runEngine g workflowId m now fuel next (mergeState s (nodeFn s))).invoked⟩ := rfl
            rw [heta, hres, hstore]
          obtain ⟨hex, hlast, hguard⟩ := ih next (mergeState s (nodeFn s)) _ heq
          subst hinv
          have hne : (runEngine g workflowId m now fuel next (mergeState s (nodeFn s))).invoked ≠ [] := by
            intro h0
            rw [h0] at hlast
            simp at hlast
          refine ⟨hex, ?_, ?_⟩
          · cases hoi : (runEngine g workflowId m now fuel next (mergeState s (nodeFn s))).invoked with
            | nil => exact absurd hoi hne
            | cons b bs =>
              rw [hoi] at hlast
              rw [List.getLast?_cons_cons]
              exact hlast
          · intro hnot nd hnd
            cases hoi : (runEngine g workflowId m now fuel next (mergeState s (nodeFn s))).invoked with
            | nil => exact absurd hoi hne
            | cons b bs =>
              rw [hoi] at hnot hnd hguard
              rw [List.dropLast_cons₂] at hnot
              have hncur : n ≠ cur := by
                intro h0
                exact hnot (h0 ▸ List.mem_cons_self _ _)
              have hnrest : n ∉ (b :: bs).dropLast := fun h0 =>
                hnot (List.mem_cons_of_mem _ h0)
              rcases List.mem_cons.mp hnd with h1 | h1
              · subst h1
                exact Or.inr (AvoidWalk.refl nd)
              · rcases hguard hnrest nd h1 with h2 | h2
                · exact Or.inl h2
                · exact Or.inr (AvoidWalk.step (Ne.symm hncur)
                    ⟨mergeState s (nodeFn s), hroute⟩ h2)

/-- Witness for C1: the concrete two-node graph pauses at `generatePrompt`,
persists the merged state and never invokes `processQuote`. -/
theorem engine_pause_halts_witness :
    runEngine c1graph "wf" WorkflowStateManager.empty 0 recursionLimit
        "generatePrompt" c1initState =
      ⟨.paused "generatePrompt" ("wf", 0) ["generatePrompt"] c1action,
        (WorkflowStateManager.empty.save "wf" c1merged none 0).2,
        ["generatePrompt"]⟩ ∧
    ((∃ σpre nodeFn, lookupEntry c1graph.nodes "generatePrompt" = some nodeFn ∧
        pauseSignal (nodeFn σpre) = some c1action ∧
        (WorkflowStateManager.load
            (WorkflowStateManager.empty.save "wf" c1merged none 0).2
            ("wf", 0) 0).1 = some (mergeState σpre (nodeFn σpre)) ∧
        (["generatePrompt"] : List String) =
          (mergeState σpre (nodeFn σpre)).completedSteps) ∧
      (["generatePrompt"] : List String).getLast? = some "generatePrompt" ∧
      ("generatePrompt" ∉ (["generatePrompt"] : List String).dropLast →
        ∀ nd ∈ (["generatePrompt"] : List String),
          nd = "generatePrompt" ∨
          AvoidWalk c1graph "generatePrompt" "generatePrompt" nd)) :=
  ⟨rfl,
    engine_pause_halts c1graph "wf" WorkflowStateManager.empty 0 recursionLimit
      "generatePrompt" c1initState "generatePrompt" ("wf", 0) ["generatePrompt"]
      c1action ((WorkflowStateManager.empty.save "wf" c1merged none 0).2)
      ["generatePrompt"] rfl⟩

/-! ## Requirement Validator claims C7 and C10 -/

namespace MCPClientManager

theorem resultExt_refl (r : MCPValidationResult) : resultExt r r :=
  ⟨fun _ h => h, fun _ h => h, fun _ h => h, fun _ h => h, fun h => h⟩

theorem resultExt_trans {a b c : MCPValidationResult} (h1 : resultExt a b)
    (h2 : resultExt b c) : resultExt a c :=
  ⟨fun e he => h2.1 e (h1.1 e he), fun w hw => h2.2.1 w (h1.2.1 w hw),
    fun x hx => h2.2.2.1 x (h1.2.2.1 x hx),
    fun t ht => h2.2.2.2.1 t (h1.2.2.2.1 t ht),
    fun hv => h2.2.2.2.2 (h1.2.2.2.2 hv)⟩

theorem resultExt_toolStep (optional : Bool) (serverName : String)
    (availableToolNames : List String) (acc : MCPValidationResult)
    (tool : String) :
    resultExt acc (validateToolStep optional serverName availableToolNames acc tool) := by
  unfold validateToolStep
  split
  · exact resultExt_refl _
  · split
    · exact ⟨fun e he => he, fun w hw => List.mem_append_left _ hw,
        fun x hx => hx, fun t ht => ht, fun h => h⟩
    · exact ⟨fun e he => List.mem_append_left _ he, fun w hw => hw,
        fun x hx => hx, fun t ht => List.mem_append_left _ ht, fun _ => rfl⟩

theorem resultExt_foldl_toolStep (optional : Bool) (serverName : String)
    (availableToolNames : List String) (tools : List String)
    (acc : MCPValidationResult) :
    resultExt acc
      (tools.foldl (validateToolStep optional serverName availableToolNames) acc) := by
  induction tools generalizing acc with
  | nil => exact resultExt_refl _
  | cons t ts ih =>
    exact resultExt_trans
      (resultExt_toolStep optional serverName availableToolNames acc t) (ih _)

theorem resultExt_step (cfg : List (String × MCPServerConfig))
    (listToolsO : String → Except Unit (List MCPToolInfo))
    (r : MCPValidationResult) (req : MCPRequirement) :
    resultExt r (validateStep cfg listToolsO r req) := by
  unfold validateStep
  split
  · split
    · exact ⟨fun e he => he, fun w hw => List.mem_append_left _ hw,
        fun x hx => hx, fun t ht => ht, fun h => h⟩
    · exact ⟨fun e he => List.mem_append_left _ he, fun w hw => hw,
        fun x hx => List.mem_append_left _ hx, fun t ht => ht, fun _ => rfl⟩
  · split
    · refine resultExt_trans (b := { r with availableServers := r.availableServers ++ [req.name] })
        ⟨fun e he => he, fun w hw => hw, fun x hx => hx, fun t ht => ht, fun h => h⟩
        (resultExt_foldl_toolStep _ _ _ _ _)
    · split
      · exact ⟨fun e he => he, fun w hw => List.mem_append_left _ hw,
          fun x hx => hx, fun t ht => ht, fun h => h⟩
      · exact ⟨fun e he => List.mem_append_left _ he, fun w hw => hw,
          fun x hx => List.mem_append_left _ hx, fun t ht => ht, fun _ => rfl⟩

theorem resultExt_foldl_step (cfg : List (String × MCPServerConfig))
    (listToolsO : String → Except Unit (List MCPToolInfo))
    (reqs : List MCPRequirement) (r : MCPValidationResult) :
    resultExt r (reqs.foldl (validateStep cfg listToolsO) r) := by
  induction reqs generalizing r with
  | nil => exact resultExt_refl _
  | cons req rest ih =>
    exact resultExt_trans (resultExt_step cfg listToolsO r req) (ih _)

end MCPClientManager

/-- C7: a declared non-optional server dependency absent from the registry
makes the whole report invalid, records exactly one error for that server and
adds it to `missingServers`, while skipping that server's tool checks
(`missingTools` and `availableServers` untouched by its step) and continuing
with the remaining dependencies — so every such missing dependency is
enumerated, not just the first. -/
theorem validate_missing_required_server (m : MCPClientManager)
    (listToolsO : String → Except Unit (List MCPToolInfo))
    (reqs : List MCPRequirement) (req : MCPRequirement)
    (hmem : req ∈ reqs) (hopt : req.optional = false)
    (hcfg : lookupEntry m.config req.name = none) :
    (∀ r, MCPClientManager.validateStep m.config listToolsO r req =
        { r with
          valid := false
          errors := r.errors ++ ["Required MCP server not configured: " ++ req.name]
          missingServers := r.missingServers ++ [req.name] }) ∧
    (m.validateRequirements listToolsO reqs).valid = false ∧
    ("Required MCP server not configured: " ++ req.name) ∈
      (m.validateRequirements listToolsO reqs).errors ∧
    req.name ∈ (m.validateRequirements listToolsO reqs).missingServers := by
  have hstep : ∀ r, MCPClientManager.validateStep m.config listToolsO r req =
      { r with
        valid := false
        errors := r.errors ++ ["Required MCP server not configured: " ++ req.name]
        missingServers := r.missingServers ++ [req.name] } := by
    intro r
    unfold MCPClientManager.validateStep
    rw [hcfg, hopt]
    simp
  obtain ⟨l1, l2, hsplit⟩ := List.append_of_mem hmem
  rw [MCPClientManager.validateRequirements, hsplit, List.foldl_append,
    List.foldl_cons, hstep]
  have hext := MCPClientManager.resultExt_foldl_step m.config listToolsO l2
    { l1.foldl (MCPClientManager.validateStep m.config listToolsO)
        MCPClientManager.initialValidationResult with
      valid := false
      errors := (l1.foldl (MCPClientManager.validateStep m.config listToolsO)
          MCPClientManager.initialValidationResult).errors ++
        ["Required MCP server not configured: " ++ req.name]
      missingServers := (l1.foldl (MCPClientManager.validateStep m.config listToolsO)
          MCPClientManager.initialValidationResult).missingServers ++ [req.name] }
  refine ⟨hstep, hext.2.2.2.2 rfl, hext.1 _ ?_, hext.2.2.1 _ ?_⟩
  · exact List.mem_append_right _ (List.mem_singleton.mpr rfl)
  · exact List.mem_append_right _ (List.mem_singleton.mpr rfl)

/-- Witness for C7: an empty registry and one required server. -/
theorem validate_missing_required_server_witness :
    (c7mgr.validateRequirements c10oracle [c7req]).valid = false ∧
    ("Required MCP server not configured: " ++ c7req.name) ∈
      (c7mgr.validateRequirements c10oracle [c7req]).errors ∧
    c7req.name ∈ (c7mgr.validateRequirements c10oracle [c7req]).missingServers :=
  ⟨(validate_missing_required_server c7mgr c10oracle [c7req] c7req (by decide)
      rfl rfl).2.1,
    (validate_missing_required_server c7mgr c10oracle [c7req] c7req (by decide)
      rfl rfl).2.2.1,
    (validate_missing_required_server c7mgr c10oracle [c7req] c7req (by decide)
      rfl rfl).2.2.2⟩

/-- C10: a configured server whose `listTools` call rejects never escapes
`validateRequirements`; the failure is folded into the report — a single
warning when the dependency is optional, and an error, `valid = false` and a
`missingServers` entry when it is not. -/
theorem validate_connect_failure_recorded (m : MCPClientManager)
    (listToolsO : String → Except Unit (List MCPToolInfo))
    (reqs : List MCPRequirement) (req : MCPRequirement) (c : MCPServerConfig)
    (hmem : req ∈ reqs) (hcfg : lookupEntry m.config req.name = some c)
    (herr : listToolsO req.name = .error ()) :
    (∀ r, MCPClientManager.validateStep m.config listToolsO r req =
        if req.optional then
          { r with warnings := r.warnings ++
              ["Failed to connect to optional MCP server: " ++ req.name] }
        else
          { r with
            valid := false
            errors := r.errors ++
              ["Failed to connect to required MCP server: " ++ req.name]
            missingServers := r.missingServers ++ [req.name] }) ∧
    (req.optional = true →
      ("Failed to connect to optional MCP server: " ++ req.name) ∈
        (m.validateRequirements listToolsO reqs).warnings) ∧
    (req.optional = false →
      (m.validateRequirements listToolsO reqs).valid = false ∧
      ("Failed to connect to required MCP server: " ++ req.name) ∈
        (m.validateRequirements listToolsO reqs).errors ∧
      req.name ∈ (m.validateRequirements listToolsO reqs).missingServers) := by
  have hstep : ∀ r, MCPClientManager.validateStep m.config listToolsO r req =
      if req.optional then
        { r with warnings := r.warnings ++
            ["Failed to connect to optional MCP server: " ++ req.name] }
      else
        { r with
          valid := false
          errors := r.errors ++
            ["Failed to connect to required MCP server: " ++ req.name]
          missingServers := r.missingServers ++ [req.name] } := by
    intro r
    unfold MCPClientManager.validateStep
    rw [hcfg, herr]
    simp
  obtain ⟨l1, l2, hsplit⟩ := List.append_of_mem hmem
  refine ⟨hstep, ?_, ?_⟩
  · intro hopt
    rw [MCPClientManager.validateRequirements, hsplit, List.foldl_append,
      List.foldl_cons, hstep, if_pos hopt]
    have hext := MCPClientManager.resultExt_foldl_step m.config listToolsO l2
      { l1.foldl (MCPClientManager.validateStep m.config listToolsO)
          MCPClientManager.initialValidationResult with
        warnings := (l1.foldl (MCPClientManager.validateStep m.config listToolsO)
            MCPClientManager.initialValidationResult).warnings ++
          ["Failed to connect to optional MCP server: " ++ req.name] }
    exact hext.2.1 _ (List.mem_append_right _ (List.mem_singleton.mpr rfl))
  · intro hopt
    rw [MCPClientManager.validateRequirements, hsplit, List.foldl_append,
      List.foldl_cons, hstep, if_neg (by rw [hopt]; exact Bool.false_ne_true)]
    have hext := MCPClientManager.resultExt_foldl_step m.config listToolsO l2
      { l1.foldl (MCPClientManager.validateStep m.config listToolsO)
          MCPClientManager.initialValidationResult with
        valid := false
        errors := (l1.foldl (MCPClientManager.validateStep m.config listToolsO)
            MCPClientManager.initialValidationResult).errors ++
          ["Failed to connect to required MCP server: " ++ req.name]
        missingServers := (l1.foldl (MCPClientManager.validateStep m.config listToolsO)
            MCPClientManager.initialValidationResult).missingServers ++ [req.name] }
    exact ⟨hext.2.2.2.2 rfl,
      hext.1 _ (List.mem_append_right _ (List.mem_singleton.mpr rfl)),
      hext.2.2.1 _ (List.mem_append_right _ (List.mem_singleton.mpr rfl))⟩

/-- Witness for C10: `elevenlabs` configured, every `listTools` call
rejecting, one non-optional requirement. -/
theorem validate_connect_failure_recorded_witness :
    (c10mgr.validateRequirements c10oracle [c7req]).valid = false ∧
    ("Failed to connect to required MCP server: " ++ c7req.name) ∈
      (c10mgr.validateRequirements c10oracle [c7req]).errors ∧
    c7req.name ∈ (c10mgr.validateRequirements c10oracle [c7req]).missingServers :=
  (validate_connect_failure_recorded c10mgr c10oracle [c7req] c7req
    exServerConfig (by decide) rfl rfl).2.2 rfl

/-! ## Health boundary claim C2 -/

/-- C2: `getHealthStatus` returns one `{name, connected, toolCount | error}`
entry per connection-map entry, returns the manager unchanged (it mutates no
connection state), and — being a total function of the manager — never
throws. -/
theorem getHealthStatus_safe (m : MCPClientManager) :
    (MCPClientManager.getHealthStatus m).2 = m ∧
    (MCPClientManager.getHealthStatus m).1.length = m.connections.length ∧
    ∀ h ∈ (MCPClientManager.getHealthStatus m).1,
      h.name ∈ m.connections.map (·.1) ∧
      (h.connected = true → h.toolCount.isSome ∧ h.error = none) ∧
      (h.connected = false → h.toolCount = none ∧ h.error.isSome) := by
  refine ⟨rfl, by simp [MCPClientManager.getHealthStatus], ?_⟩
  intro h hh
  simp only [MCPClientManager.getHealthStatus, List.mem_map] at hh
  obtain ⟨e, he, hfe⟩ := hh
  by_cases hc : e.2.connected = true
  · rw [if_pos hc] at hfe
    subst hfe
    exact ⟨List.mem_map_of_mem _ he, fun _ => ⟨rfl, rfl⟩,
      fun hfalse => absurd hfalse (by simp)⟩
  · rw [if_neg hc] at hfe
    subst hfe
    exact ⟨List.mem_map_of_mem _ he, fun htrue => absurd htrue (by simp),
      fun _ => ⟨rfl, rfl⟩⟩

/-- Witness for C2 at a concrete manager with one live and one dead
connection. -/
theorem getHealthStatus_safe_witness :
    (MCPClientManager.getHealthStatus c2mgr).2 = c2mgr ∧
    ((⟨"elevenlabs", true, some 1, none⟩ : MCPClientManager.HealthEntry).toolCount.isSome ∧
      (⟨"elevenlabs", true, some 1, none⟩ : MCPClientManager.HealthEntry).error = none) :=
  ⟨(getHealthStatus_safe c2mgr).1,
    ((getHealthStatus_safe c2mgr).2.2 ⟨"elevenlabs", true, some 1, none⟩
      (by decide)).2.1 rfl⟩

/-! ## Configuration surface claim C8 -/

theorem lookupEntry_setEntry_ne {κ ν : Type} [DecidableEq κ]
    (l : List (κ × ν)) (k : κ) (v : ν) {k' : κ} (h : k' ≠ k) :
    lookupEntry (setEntry l k v) k' = lookupEntry l k' := by
  induction l with
  | nil => simp [setEntry, lookupEntry, Ne.symm h]
  | cons e es ih =>
    rw [setEntry]
    split
    · next heq => simp [lookupEntry, heq, Ne.symm h]
    · next hne =>
      by_cases hc : e.1 = k'
      · simp [lookupEntry, hc]
      · simp [lookupEntry, hc, ih]

theorem nodup_dedupFirst (l : List String) : (dedupFirst l).Nodup := by
  have hgen : ∀ (l : List String) (acc : List String), acc.Nodup →
      (l.foldl (fun acc n => if n ∈ acc then acc else acc ++ [n]) acc).Nodup := by
    intro l
    induction l with
    | nil => intro acc h; exact h
    | cons n rest ih =>
      intro acc hacc
      rw [List.foldl_cons]
      by_cases hmem : n ∈ acc
      · rw [if_pos hmem]; exact ih acc hacc
      · rw [if_neg hmem]
        refine ih _ ?_
        simp [List.nodup_append, hacc, hmem]
  exact hgen l [] List.nodup_nil

theorem lookup_loadConfig_no_writer (env : List (String × String))
    (parseArgs : String → Option (List String)) (k : String) :
    ∀ (names : List String) (acc : List (String × MCPServerConfig)),
    (∀ n ∈ names, ∀ cfg, tryParseServer env parseArgs n = some cfg →
      normalizeServerName n ≠ k) →
    lookupEntry
      (names.foldl
        (fun acc n =>
          match tryParseServer env parseArgs n with
          | some cfg => setEntry acc (normalizeServerName n) cfg
          | none => acc)
        acc) k = lookupEntry acc k := by
  intro names
  induction names with
  | nil => intro acc _; rfl
  | cons n rest ih =>
    intro acc hw
    rw [List.foldl_cons]
    cases htp : tryParseServer env parseArgs n with
    | none => exact ih acc (fun n' hn' => hw n' (List.mem_cons_of_mem _ hn'))
    | some cfg =>
      exact (ih (setEntry acc (normalizeServerName n) cfg)
          (fun n' hn' => hw n' (List.mem_cons_of_mem _ hn'))).trans
        (lookupEntry_setEntry_ne acc (normalizeServerName n) cfg
          (fun h0 => hw n (List.mem_cons_self _ _) cfg htp h0.symm))

theorem lookup_loadConfig_writer (env : List (String × String))
    (parseArgs : String → Option (List String)) (name : String)
    (cfg : MCPServerConfig) (htp : tryParseServer env parseArgs name = some cfg) :
    ∀ (names : List String) (acc : List (String × MCPServerConfig)),
    names.Nodup → name ∈ names →
    (∀ n ∈ names, n ≠ name → ∀ cfg0, tryParseServer env parseArgs n = some cfg0 →
      normalizeServerName n ≠ normalizeServerName name) →
    lookupEntry
      (names.foldl
        (fun acc n =>
          match tryParseServer env parseArgs n with
          | some cfg => setEntry acc (normalizeServerName n) cfg
          | none => acc)
        acc) (normalizeServerName name) = some cfg := by
  intro names
  induction names with
  | nil => intro acc _ hmem; simp at hmem
  | cons n rest ih =>
    intro acc hnd hmem hw
    rw [List.foldl_cons]
    by_cases hn : n = name
    · subst hn
      rw [htp]
      have hnotin : n ∉ rest := (List.nodup_cons.mp hnd).1
      refine (lookup_loadConfig_no_writer env parseArgs _ rest _ ?_).trans
        (lookupEntry_setEntry_self acc _ cfg)
      intro n' hn' cfg0 htp0
      exact hw n' (List.mem_cons_of_mem _ hn')
        (fun h0 => hnotin (h0 ▸ hn')) cfg0 htp0
    · have hm : name ∈ rest := by
        rcases List.mem_cons.mp hmem with h0 | h0
        · exact absurd h0.symm hn
        · exact h0
      cases htp0 : tryParseServer env parseArgs n with
      | none =>
        exact ih acc (List.nodup_cons.mp hnd).2 hm
          (fun n' hn' => hw n' (List.mem_cons_of_mem _ hn'))
      | some cfg0 =>
        exact ih (setEntry acc (normalizeServerName n) cfg0)
          (List.nodup_cons.mp hnd).2 hm
          (fun n' hn' => hw n' (List.mem_cons_of_mem _ hn'))

/-- C8 (amended): server descriptors are parsed from environment-variable
triples keyed `{NAME}_MCP_TRANSPORT` / `{NAME}_MCP_COMMAND` /
`{NAME}_MCP_ARGS` (transport must be the supported `"stdio"`, command and args
non-empty); a successfully parsed descriptor is stored under the server name
lower-cased with underscores turned into hyphens, while an `_ARGS` payload
that fails to parse as JSON makes the loader skip that server (nothing
stored, no error raised) and continue with the others. -/
theorem loadConfigFromEnv_triple (env : List (String × String))
    (parseArgs : String → Option (List String)) (name cmd argsStr : String)
    (hT : lookupEntry env (name ++ "_MCP_TRANSPORT") = some "stdio")
    (hC : lookupEntry env (name ++ "_MCP_COMMAND") = some cmd) (hcmd : cmd ≠ "")
    (hA : lookupEntry env (name ++ "_MCP_ARGS") = some argsStr)
    (hargs : argsStr ≠ "")
    (hmem : name ∈ serverNamesOf env)
    (huniq : ∀ n ∈ serverNamesOf env,
      normalizeServerName n = normalizeServerName name → n = name) :
    (∀ args, parseArgs argsStr = some args →
      lookupEntry (loadConfigFromEnv env parseArgs) (normalizeServerName name) =
        some ⟨normalizeServerName name, "stdio", cmd, args⟩) ∧
    (parseArgs argsStr = none →
      lookupEntry (loadConfigFromEnv env parseArgs) (normalizeServerName name) =
        none) := by
  constructor
  · intro args hpa
    have htp : tryParseServer env parseArgs name =
        some ⟨normalizeServerName name, "stdio", cmd, args⟩ := by
      unfold tryParseServer
      simp only [hT, hC, hA, hpa]
      rw [if_pos ⟨trivial, hcmd, hargs⟩]
    exact lookup_loadConfig_writer env parseArgs name _ htp (serverNamesOf env)
      [] (nodup_dedupFirst _) hmem
      (fun n hn hne cfg0 _ heq => hne (huniq n hn heq))
  · intro hpa
    have hnw : ∀ n ∈ serverNamesOf env, ∀ cfg,
        tryParseServer env parseArgs n = some cfg →
        normalizeServerName n ≠ normalizeServerName name := by
      intro n hn cfg htp0 heq
      have hn' : n = name := huniq n hn heq
      subst hn'
      rw [show tryParseServer env parseArgs n = none from ?_] at htp0
      · exact Option.noConfusion htp0
      · unfold tryParseServer
        simp only [hT, hC, hA, hpa]
        rw [if_pos ⟨trivial, hcmd, hargs⟩]
    exact lookup_loadConfig_no_writer env parseArgs _ (serverNamesOf env) [] hnw

/-- C8 counterexample: with the key format the claim states — no `_MCP` infix,
`{NAME}_TRANSPORT` / `{NAME}_COMMAND` / `{NAME}_ARGS` — the loader parses no
server at all: the source matches `^(.+)_MCP_TRANSPORT$`. -/
theorem loadConfig_key_format_counterexample :
    serverNamesOf c8envBad = [] ∧
    loadConfigFromEnv c8envBad c8parse = [] ∧
    lookupEntry (loadConfigFromEnv c8envBad c8parse) "a" = none :=
  ⟨rfl, rfl, rfl⟩

/-- Witness for C8's amended statement: a triple with the `_MCP` infix is
parsed, stored under the lower-cased hyphenated name. -/
theorem loadConfigFromEnv_triple_witness :
    lookupEntry (loadConfigFromEnv c8envGood c8parse) "my-server" =
      some ⟨"my-server", "stdio", "node", ["a"]⟩ :=
  (loadConfigFromEnv_triple c8envGood c8parse "MY_SERVER" "node" "[\"a\"]"
    rfl rfl (by decide) rfl (by decide) (by decide) (by decide)).1 ["a"] rfl
